import Mathlib

/-!
Verification of the code-push-server update-check core: a shallow embedding
of the acquisition route (`src/api/script/routes/acquisition.ts`), the common
utilities, and the storage contract exercised by the shared contract-test
suite (`src/api/test/storage.ts`).

Components whose implementation files are not part of the repository snapshot
(the rollout selector, the redis manager's key hashing, and the storage
backends) are modelled from the specification; every such definition carries a
doc comment starting with `Modelled from the spec:`.
-/

namespace CodePush

/-- Storage error kinds (`ErrorCode` in `storage/storage.ts`), as exercised by
the contract tests: `NotFound`, `AlreadyExists`, `Other` (unclassified,
including the history-clear guard), plus `Invalid` and `ConnectionFailed`. -/
inductive ErrorCode where
  | NotFound
  | AlreadyExists
  | Invalid
  | ConnectionFailed
  | Other
deriving DecidableEq, Repr

/-- Collaborator permission on an app: exactly `Owner` or `Collaborator`. -/
inductive Permission where
  | Owner
  | Collaborator
deriving DecidableEq, Repr

/-! ## Rollout selector

`utils/rollout-selector.ts` is not in the repository snapshot; only its caller
(`updateCheck` in `acquisition.ts`, lines 207–217) is. -/

/-- Modelled from the spec: `rollout-selector.ts` is missing from the
snapshot. "Derive a numeric bucket in [0,100) from a hash of clientUniqueId +
releaseIdentifier." The hash is modelled as a 32-bit string fold; any pure
string hash gives the same verification content. -/
def getHashCode (input : String) : Nat :=
  input.data.foldl (fun h c => (h * 31 + c.toNat) % 4294967296) 0

/-- Modelled from the spec: `isSelectedForRollout(clientUniqueId,
rolloutPercentage, releaseIdentifier)`; selected iff the client's bucket is
below the rollout percentage, and an absent percentage means always
selected. -/
def isSelectedForRollout (clientUniqueId : String) (rollout : Option Nat) (releaseIdentifier : String) : Bool :=
  match rollout with
  | none => true
  | some p => getHashCode (clientUniqueId ++ "-" ++ releaseIdentifier) % 100 < p

/-! ## Update-check request field extraction (`createResponseUsingStorage`)

`acquisition.ts` lines 62–84: the request source is the POST body or the GET
query; field values are either absent (`undefined`) or strings, and JavaScript
`||` treats the empty string as falsy. -/

/-- JavaScript `a || b` on string-or-undefined values: the empty string and
`undefined` are falsy. -/
def jsOr (a b : Option String) : Option String :=
  match a with
  | some s => if s = "" then b else some s
  | none => b

/-- The label-related fields of an update-check request source (POST body or
GET query); `none` models an absent (`undefined`) field. -/
structure LabelSource where
  label : Option String
  previousLabel : Option String
  previous_label : Option String
deriving DecidableEq, Repr

/-- `acquisition.ts` lines 67–75: `labelField = source.label ||
source.previousLabel || source.previous_label`, then the forwarded label is
`labelField` when it is a non-empty string, else `req.query.label` on GET when
that is a string (for GET the source *is* the query), else `source.label` when
it is a string, else `""`. -/
def resolveLabel (isGet : Bool) (source : LabelSource) : String :=
  let labelField := jsOr (jsOr source.label source.previousLabel) source.previous_label
  match labelField with
  | some s =>
    if s ≠ "" then s
    else match isGet, source.label with
      | true, some q => q
      | _, _ => match source.label with
        | some l => l
        | none => ""
  | none => match isGet, source.label with
    | true, some q => q
    | _, _ => match source.label with
      | some l => l
      | none => ""

/-! ## Cache key derivation (`sanitizeClientQuery`, `getCacheKey`)

`acquisition.ts` lines 28–55. The query or body is modelled as an ordered
association list of string fields (values taken as already URI-encoded). For
POST the key is built from `req.path` and the sanitized body; for GET from the
parsed `originalUrl`'s pathname and sanitized query — both reduce to the same
path + sanitized-field computation modelled here. -/

/-- The client-identifying field names removed by `sanitizeClientQuery`. -/
def isClientField (k : String) : Bool :=
  k = "clientUniqueId" || k = "client_unique_id"

/-- `sanitizeClientQuery`: drop the `clientUniqueId` / `client_unique_id`
fields, keep everything else. -/
def sanitizeClientQuery (query : List (String × String)) : List (String × String) :=
  query.filter (fun kv => !isClientField kv.1)

/-- `querystring.stringify`: `k=v` pairs joined by `&`. -/
def stringifyQuery (query : List (String × String)) : String :=
  String.intercalate "&" (query.map (fun kv => kv.1 ++ "=" ++ kv.2))

/-- `getCacheKey` (POST branch) / `getUrlKey` (GET branch): path plus `?` and
the sanitized query string when the latter is non-empty. -/
def getCacheKey (path : String) (query : List (String × String)) : String :=
  let queryStringValue := stringifyQuery (sanitizeClientQuery query)
  path ++ (if queryStringValue = "" then "" else "?" ++ queryStringValue)

/-- Modelled from the spec: `redis.Utilities.getDeploymentKeyHash` lives in
`redis-manager.ts`, which is missing from the snapshot; the spec calls it the
"deployment-key hash". Modelled as an injective tagging of the key, which is
all that key-equality reasoning uses. -/
def getDeploymentKeyHash (deploymentKey : String) : String :=
  "deploymentKeyHash:" ++ deploymentKey

/-- The full cache address of an update-check request (`updateCheck` lines
183–187): the deployment-key hash and the sanitized url key. -/
def cacheAddress (deploymentKey path : String) (query : List (String × String)) : String × String :=
  (getDeploymentKeyHash deploymentKey, getCacheKey path query)

/-- Two field lists agree outside the client-identifying fields: same field
names in the same order, and equal values wherever the name is not
`clientUniqueId` / `client_unique_id`. -/
def agreesOutsideClientFields : List (String × String) → List (String × String) → Bool
  | [], [] => true
  | (k1, v1) :: t1, (k2, v2) :: t2 =>
    k1 = k2 && (isClientField k1 || v1 = v2) && agreesOutsideClientFields t1 t2
  | _, _ => false

/-! ## appVersion normalization (`createResponseUsingStorage`, lines 86–121)

The two regular expressions of the source, `/^\d+$/` and
`/^\d+\.\d+([\+\-].*)?$/`, are embedded as character-list functions; both are
deterministic (no backtracking can change the outcome, since `\d` never
matches `.`/`+`/`-`). JavaScript `.` matches every character except the line
terminators `\n`, `\r`, U+2028, U+2029, and without the `m` flag `$` anchors
only at the end of the input, so the tail after the tag character must be
free of line terminators for the second regex to match. -/

/-- A character starting a semver pre-release/build tag, `/[\+\-]/`. -/
def isTagChar (c : Char) : Bool :=
  c = '+' || c = '-'

/-- A JavaScript line terminator: `\n`, `\r`, U+2028 or U+2029 — the
characters `.` never matches. -/
def isLineTerminator (c : Char) : Bool :=
  c = '\n' || c = '\r' || c = '\u2028' || c = '\u2029'

/-- `/^\d+$/` on the character list of the version string. -/
def isPlainIntegerNumber (cs : List Char) : Bool :=
  !cs.isEmpty && cs.all (·.isDigit)

/-- Split off the maximal leading run of digits. -/
def splitDigits : List Char → List Char × List Char
  | [] => ([], [])
  | c :: cs =>
    if c.isDigit then
      let (d, r) := splitDigits cs
      (c :: d, r)
    else ([], c :: cs)

/-- `/^\d+\.\d+([\+\-].*)?$/`: digits, a dot, digits, then either the end of
the string or a `+`/`-` tag followed by a tail free of line terminators
(JavaScript `.` does not match `\n`, `\r`, U+2028, U+2029, and `$` anchors at
the end of the input). -/
def isMissingPatchVersion (cs : List Char) : Bool :=
  let p1 := splitDigits cs
  if p1.1.isEmpty then false
  else
    match p1.2 with
    | '.' :: r2 =>
      let p2 := splitDigits r2
      if p2.1.isEmpty then false
      else
        match p2.2 with
        | [] => true
        | c :: rest => isTagChar c && rest.all (fun x => !isLineTerminator x)
    | _ => false

/-- Lines 99–104: `search(/[\+\-]/)` then slice-and-insert `".0"` before the
first tag character, or append `".0"` when there is none (`search` = -1). -/
def insertPatchBeforeTag : List Char → List Char
  | [] => ['.', '0']
  | c :: cs => if isTagChar c then '.' :: '0' :: c :: cs else c :: insertPatchBeforeTag cs

/-- Lines 86–105 of `createResponseUsingStorage`: normalize
`updateRequest.appVersion`, returning the normalized version together with
`originalAppVersion` (`some` exactly when either rewrite fired). A plain
integer `v` becomes `v + ".0.0"`; a two-component version gets `".0"`
inserted before its first tag character (or appended when untagged). -/
def normalizeAppVersionCore (cs : List Char) : List Char × Option (List Char) :=
  let step1 : List Char × Option (List Char) :=
    if isPlainIntegerNumber cs then
      (cs ++ ('.' :: '0' :: '.' :: '0' :: []), some cs)
    else (cs, none)
  if isMissingPatchVersion step1.1 then
    (insertPatchBeforeTag step1.1, some step1.1)
  else step1

/-- The string-level wrapper of `normalizeAppVersionCore`: the normalized
`appVersion` together with `originalAppVersion` when a rewrite fired. -/
def normalizeAppVersion (appVersion : String) : String × Option String :=
  (String.mk (normalizeAppVersionCore appVersion.data).1,
    (normalizeAppVersionCore appVersion.data).2.map (fun cs => String.mk cs))

/-! ## Cacheable response shape and the version echo -/

/-- The `UpdateCheckResponse`-shaped package returned inside an update-check
response body (fields the embedded claims observe). -/
structure PackageResponse where
  isAvailable : Bool
  appVersion : String
  label : Option String
  packageHash : String
  isMandatory : Bool
  target_binary_range : Option String
deriving DecidableEq, Repr

/-- `UpdateCheckCacheResponse`: the resolver output that gets cached —
a fallback `originalPackage`, an optional staged `rolloutPackage`, and the
rollout percentage. -/
structure UpdateCheckCacheResponse where
  originalPackage : PackageResponse
  rolloutPackage : Option PackageResponse
  rollout : Option Nat
deriving DecidableEq, Repr

/-- `redis.CacheableResponse`: status code plus cacheable body. -/
structure CacheableResponse where
  statusCode : Nat
  body : UpdateCheckCacheResponse
deriving DecidableEq, Repr

/-- Lines 115–121: when normalization fired and the resolved
`originalPackage.appVersion` equals the normalized request version, both the
original and the rollout package echo the client's un-normalized string. -/
def applyOriginalVersionEcho (norm : String × Option String) (u : UpdateCheckCacheResponse) : UpdateCheckCacheResponse :=
  match norm.2 with
  | none => u
  | some originalAppVersion =>
    if u.originalPackage.appVersion = norm.1 then
      { u with
        originalPackage := { u.originalPackage with appVersion := originalAppVersion }
        rolloutPackage := u.rolloutPackage.map (fun p => { p with appVersion := originalAppVersion }) }
    else u

/-! ## The updateCheck cache flow (`updateCheck`, lines 181–240)

The promise chain is embedded as a pure function from the outcome of the
cache read and of the storage computation to the ordered list of observable
events (responses sent, cache populated, errors handed to the error
handler). -/

/-- Outcome of `redisManager.getCachedResponse`. -/
inductive CacheReadResult where
  | hit (response : CacheableResponse)
  | miss
  | failure (error : String)
deriving DecidableEq, Repr

/-- Outcome of `createResponseUsingStorage` on a cache miss: a cacheable
response, `invalidRequest` when validation fails (a malformed-request error is
sent inside and `null` returned), or a rejected storage promise. -/
inductive StorageComputeResult where
  | ok (response : CacheableResponse)
  | invalidRequest
  | rejected (error : String)
deriving DecidableEq, Repr

/-- Observable events of one updateCheck request, in order. -/
inductive UpdateCheckEvent where
  | sentResponse (statusCode : Nat) (updateInfo : PackageResponse) (fromCache : Bool)
  | sentMalformedRequestError
  | cachePopulated (response : CacheableResponse)
  | errorHandled (error : String)
deriving DecidableEq, Repr

/-- Lines 209–217: `label || packageHash` of the rollout package is the
release-specific string fed to the rollout selector. -/
def releaseSpecificString (rolloutPackage : PackageResponse) : String :=
  match rolloutPackage.label with
  | some l => if l = "" then rolloutPackage.packageHash else l
  | none => rolloutPackage.packageHash

/-- Lines 207–224: decide per client between the rollout package and the
original package, then stamp `target_binary_range`. -/
def chooseUpdateInfo (clientUniqueId : String) (body : UpdateCheckCacheResponse) : PackageResponse :=
  let giveRolloutPackage : Bool :=
    match body.rolloutPackage with
    | some rp => !(clientUniqueId = "") && isSelectedForRollout clientUniqueId body.rollout (releaseSpecificString rp)
    | none => false
  let updateInfo :=
    match body.rolloutPackage, giveRolloutPackage with
    | some rp, true => rp
    | _, _ => body.originalPackage
  { updateInfo with target_binary_range := some updateInfo.appVersion }

/-- Lines 191–239, the promise chain of `updateCheck`: a cache-read error is
stored and replaced by `null`; a hit is served from cache; a miss computes
fresh from storage; the response is sent, then (on a miss) the deferred
`setCachedResponse` runs — when it resolves (`cacheWriteError = none`) the
cache is populated and a stored cache-read error is then re-thrown into the
error handler; when it rejects (`cacheWriteError = some w`), the rethrow
`then` is skipped and the error handler receives the write error instead,
discarding the stored cache-read error. A rejected storage computation
likewise skips the remaining `then` steps and goes straight to the error
handler. -/
def updateCheckEvents (cache : CacheReadResult) (storageResult : StorageComputeResult)
    (cacheWriteError : Option String) (clientUniqueId : String) : List UpdateCheckEvent :=
  let redisError : Option String :=
    match cache with
    | .failure e => some e
    | _ => none
  let cachedResponse : Option CacheableResponse :=
    match cache with
    | .hit r => some r
    | _ => none
  let fromCache : Bool := cachedResponse.isSome
  let errorEvents : List UpdateCheckEvent :=
    match redisError with
    | some e => [.errorHandled e]
    | none => []
  match cachedResponse, storageResult with
  | none, .rejected e => [.errorHandled e]
  | _, _ =>
    let (preEvents, response) : List UpdateCheckEvent × Option CacheableResponse :=
      match cachedResponse, storageResult with
      | some r, _ => ([], some r)
      | none, .ok r => ([], some r)
      | none, _ => ([.sentMalformedRequestError], none)
    match response with
    | some r =>
      let sendEvent : UpdateCheckEvent :=
        .sentResponse r.statusCode (chooseUpdateInfo clientUniqueId r.body) fromCache
      if fromCache then sendEvent :: errorEvents
      else
        match cacheWriteError with
        | none => sendEvent :: .cachePopulated r :: errorEvents
        | some w => [sendEvent, .errorHandled w]
    | none => preEvents ++ errorEvents

/-! ## Storage contract (spec-modelled)

The storage backends (`json-storage.ts` / `azure-storage.ts`) are not in the
repository snapshot; only the shared contract-test suite
(`src/api/test/storage.ts`) and the abstract interface are. The entity graph
and the operations the claims exercise are modelled from the spec (sections
3, 4.1 and 8). -/

/-- A stored package: one release artifact's metadata in a deployment's
history. -/
structure Package where
  label : String
  appVersion : String
  packageHash : String
  description : String
  isMandatory : Bool
  isDisabled : Bool
  rollout : Option Nat
deriving DecidableEq, Repr

/-- An app: id, name and its collaborator map (email → permission), modelled
as an ordered association list. -/
structure App where
  id : String
  name : String
  collaborators : List (String × Permission)
deriving DecidableEq, Repr

/-- A deployment: id, name, the unique client-facing key, the owning app and
the ordered package history. -/
structure Deployment where
  id : String
  name : String
  key : String
  appId : String
  packageHistory : List Package
deriving DecidableEq, Repr

/-- Modelled from the spec: the storage state visible to the claims — apps,
deployments, and the derived reverse index from deployment key to
(appId, deploymentId). -/
structure StorageState where
  apps : List App
  deployments : List Deployment
  deploymentKeyIndex : List (String × String × String)
deriving DecidableEq, Repr

/-- Modelled from the spec: lookup-by-id fails `NotFound` when the id does not
resolve. -/
def getApp (st : StorageState) (appId : String) : Except ErrorCode App :=
  match st.apps.find? (fun a => a.id = appId) with
  | some a => .ok a
  | none => .error .NotFound

/-- Modelled from the spec: deployment lookup by id, `NotFound` when the id
does not resolve. -/
def getDeployment (st : StorageState) (deploymentId : String) : Except ErrorCode Deployment :=
  match st.deployments.find? (fun d => d.id = deploymentId) with
  | some d => .ok d
  | none => .error .NotFound

/-- Modelled from the spec: package-history lookup by deployment id. -/
def getPackageHistory (st : StorageState) (deploymentId : String) : Except ErrorCode (List Package) :=
  (getDeployment st deploymentId).map (fun d => d.packageHistory)

/-- Modelled from the spec: resolve a deployment key through the reverse
index (`getDeploymentInfo`), then return the deployment's ordered history;
`NotFound` is reserved for keys that do not resolve to any deployment. -/
def getPackageHistoryFromDeploymentKey (st : StorageState) (deploymentKey : String) : Except ErrorCode (List Package) :=
  match st.deploymentKeyIndex.find? (fun e => e.1 = deploymentKey) with
  | none => .error .NotFound
  | some e =>
    match st.deployments.find? (fun d => d.id = e.2.2) with
    | none => .error .NotFound
    | some d => .ok d.packageHistory

/-- Modelled from the spec: `addDeployment` creates the deployment under an
existing app with an empty package history and makes the reverse-index entry
visible; fails `NotFound` for a non-existent app. Returns the new state and
the deployment id. -/
def addDeployment (st : StorageState) (appId : String) (deployment : Deployment) : Except ErrorCode (StorageState × String) :=
  if st.apps.any (fun a => a.id = appId) then
    .ok
      ({ st with
          deployments := st.deployments ++ [{ deployment with appId := appId, packageHistory := [] }]
          deploymentKeyIndex := st.deploymentKeyIndex ++ [(deployment.key, appId, deployment.id)] },
        deployment.id)
  else .error .NotFound

/-- Modelled from the spec: `commitPackage` appends to the deployment's
history with an auto-incremented label `v(n+1)`. -/
def commitPackage (st : StorageState) (deploymentId : String) (appPackage : Package) : Except ErrorCode StorageState :=
  match st.deployments.find? (fun d => d.id = deploymentId) with
  | none => .error .NotFound
  | some _ =>
    .ok
      { st with
          deployments := st.deployments.map (fun d =>
            if d.id = deploymentId then
              { d with packageHistory := d.packageHistory ++ [{ appPackage with label := "v" ++ toString (d.packageHistory.length + 1) }] }
            else d) }

/-- Modelled from the spec: `updatePackageHistory` rejects a null or empty
history with kind `Other` before touching the store, and otherwise replaces
the deployment's history. Returns the (possibly unchanged) state and the
error, if any. -/
def updatePackageHistory (st : StorageState) (deploymentId : String) (history : Option (List Package)) : StorageState × Option ErrorCode :=
  match history with
  | none => (st, some .Other)
  | some [] => (st, some .Other)
  | some hs =>
    match st.deployments.find? (fun d => d.id = deploymentId) with
    | none => (st, some .NotFound)
    | some _ =>
      ({ st with
          deployments := st.deployments.map (fun d =>
            if d.id = deploymentId then { d with packageHistory := hs } else d) },
        none)

/-- Modelled from the spec: `removeApp` cascade-deletes the app, its
descendant deployments and their reverse-index entries; fails `NotFound` for
a non-existent app. -/
def removeApp (st : StorageState) (appId : String) : Except ErrorCode StorageState :=
  if st.apps.any (fun a => a.id = appId) then
    .ok
      { apps := st.apps.filter (fun a => !(a.id = appId))
        deployments := st.deployments.filter (fun d => !(d.appId = appId))
        deploymentKeyIndex := st.deploymentKeyIndex.filter (fun e => !(e.2.1 = appId)) }
  else .error .NotFound

/-- The email of the app's current owner: the first collaborator entry with
`Owner` permission. -/
def getOwnerEmail (app : App) : Option String :=
  (app.collaborators.find? (fun c => c.2 = Permission.Owner)).map (fun c => c.1)

/-- Permission recorded for an email on an app. -/
def collabPermission (app : App) (email : String) : Option Permission :=
  (app.collaborators.find? (fun c => c.1 = email)).map (fun c => c.2)

/-- Modelled from the spec: `transferApp` fails `AlreadyExists` when the
target equals the current owner, `NotFound` when the target email has no
account; on success the prior owner becomes `Collaborator`, the target
becomes `Owner` (added as a collaborator when not yet one), and all other
collaborators are preserved. `registeredEmails` are the emails of existing
accounts. -/
def transferApp (registeredEmails : List String) (app : App) (email : String) : Except ErrorCode App :=
  match getOwnerEmail app with
  | none => .error .NotFound
  | some ownerEmail =>
    if email = ownerEmail then .error .AlreadyExists
    else if registeredEmails.any (fun e => e = email) then
      let reassigned := app.collaborators.map (fun c =>
        if c.1 = email then (c.1, Permission.Owner)
        else if c.1 = ownerEmail then (c.1, Permission.Collaborator)
        else c)
      let withTarget :=
        if app.collaborators.any (fun c => c.1 = email) then reassigned
        else reassigned ++ [(email, Permission.Owner)]
      .ok { app with collaborators := withTarget }
    else .error .NotFound

/-! ## Concrete fixtures (used by witnesses and counterexamples) -/

/-- A one-owner app fixture. -/
def appFixture : App :=
  { id := "app1", name := "An App",
    collaborators := [("owner@example.com", Permission.Owner)] }

/-- A three-collaborator app fixture owned by `owner@example.com`. -/
def appFixture3 : App :=
  { id := "app1", name := "An App",
    collaborators :=
      [("owner@example.com", Permission.Owner),
       ("collab1@example.com", Permission.Collaborator),
       ("collab2@example.com", Permission.Collaborator)] }

/-- A deployment fixture with an empty history. -/
def deploymentFixture : Deployment :=
  { id := "dep1", name := "Production", key := "DK1", appId := "app1", packageHistory := [] }

/-- A package fixture. -/
def packageFixture : Package :=
  { label := "", appVersion := "1.0.0", packageHash := "hash1", description := "desc",
    isMandatory := false, isDisabled := false, rollout := none }

/-- A cacheable-response fixture. -/
def responseFixture : CacheableResponse :=
  { statusCode := 200
    body :=
      { originalPackage :=
          { isAvailable := true, appVersion := "1.0.0", label := some "v1",
            packageHash := "h1", isMandatory := false, target_binary_range := none }
        rolloutPackage := none
        rollout := none } }

/-- A storage-state fixture: one app with one deployment, reverse index
populated. -/
def storageFixture : StorageState :=
  { apps := [appFixture]
    deployments := [deploymentFixture]
    deploymentKeyIndex := [("DK1", "app1", "dep1")] }

/-! ## Theorems -/

/-- C1: `isSelectedForRollout` is deterministic (identical inputs always give
identical output, with no dependence on time or external state), monotonic in
the rollout percentage (selection at `p1 ≤ p2` implies selection at `p2`),
and an absent percentage always selects the client. -/
theorem isSelectedForRollout_deterministic_monotonic :
    (∀ id1 id2 : String, ∀ p1 p2 : Option Nat, ∀ r1 r2 : String,
      id1 = id2 → p1 = p2 → r1 = r2 →
      isSelectedForRollout id1 p1 r1 = isSelectedForRollout id2 p2 r2) ∧
    (∀ id rel : String, ∀ p1 p2 : Nat, p1 ≤ p2 →
      isSelectedForRollout id (some p1) rel = true →
      isSelectedForRollout id (some p2) rel = true) ∧
    (∀ id rel : String, isSelectedForRollout id none rel = true) := by
  refine ⟨?_, ?_, ?_⟩
  · rintro id1 id2 p1 p2 r1 r2 rfl rfl rfl
    rfl
  · intro id rel p1 p2 hle hsel
    simp only [isSelectedForRollout, decide_eq_true_eq] at hsel ⊢
    exact lt_of_lt_of_le hsel hle
  · intro id rel
    rfl

/-- Witness for C1, at the concrete client "clientA" and release "v2" with
percentages 100 ≤ 100. -/
theorem isSelectedForRollout_deterministic_monotonic_witness :
    isSelectedForRollout "clientA" (some 100) "v2" = true :=
  isSelectedForRollout_deterministic_monotonic.2.1 "clientA" "v2" 100 100 (le_refl 100) (by decide)

/-- C10: when the request source carries a non-empty `label`, that value (not
`previousLabel` / `previous_label`) is the label forwarded to the resolver;
the previous-label fields are consulted only when `label` is absent or
empty. -/
theorem resolveLabel_prefers_label :
    (∀ (isGet : Bool) (source : LabelSource) (l : String),
      source.label = some l → l ≠ "" → resolveLabel isGet source = l) ∧
    (∀ (isGet : Bool) (source : LabelSource) (p : String),
      (source.label = none ∨ source.label = some "") →
      source.previousLabel = some p → p ≠ "" → resolveLabel isGet source = p) := by
  constructor
  · intro isGet source l hl hne
    simp [resolveLabel, jsOr, hl, hne]
  · rintro isGet source p (hl | hl) hp hne <;>
      simp [resolveLabel, jsOr, hl, hp, hne]

/-- Witness for C10: a source with both `label` = "v3" and `previousLabel` =
"v1" forwards "v3"; with an empty `label` it forwards the previous label. -/
theorem resolveLabel_prefers_label_witness :
    resolveLabel false { label := some "v3", previousLabel := some "v1", previous_label := none } = "v3" ∧
    resolveLabel false { label := some "", previousLabel := some "v1", previous_label := none } = "v1" :=
  ⟨resolveLabel_prefers_label.1 false _ "v3" rfl (by decide),
   resolveLabel_prefers_label.2 false _ "v1" (Or.inr rfl) rfl (by decide)⟩

/-- C6: `updatePackageHistory` with a null or empty history fails with error
kind `Other` and leaves the stored package history (indeed the whole storage
state) exactly as it was. -/
theorem updatePackageHistory_rejects_null_empty :
    ∀ (st : StorageState) (deploymentId : String),
      updatePackageHistory st deploymentId none = (st, some ErrorCode.Other) ∧
      updatePackageHistory st deploymentId (some []) = (st, some ErrorCode.Other) ∧
      getPackageHistory (updatePackageHistory st deploymentId none).1 deploymentId =
        getPackageHistory st deploymentId ∧
      getPackageHistory (updatePackageHistory st deploymentId (some [])).1 deploymentId =
        getPackageHistory st deploymentId := by
  intro st deploymentId
  exact ⟨rfl, rfl, rfl, rfl⟩

/-- C4 (amended): when the cache read fails, the fresh storage computation
does not itself reject, and the deferred cache write resolves, the request
produces exactly the events of a cache miss followed by the stored cache-read
error being handed to the error handler — the response (or the
malformed-request error) is sent first, then the cache is populated, and only
then is the error re-raised. (When the storage computation or the deferred
cache write rejects, that error goes to the error handler instead and the
stored cache-read error is discarded.) -/
theorem updateCheck_cacheFailure_degrades_to_miss :
    ∀ (e : String) (sr : StorageComputeResult) (w : Option String) (cid : String),
      (∀ e', sr ≠ StorageComputeResult.rejected e') →
      w = none →
      updateCheckEvents (.failure e) sr w cid =
        updateCheckEvents .miss sr w cid ++ [.errorHandled e] ∧
      (∀ r : CacheableResponse, sr = .ok r →
        updateCheckEvents (.failure e) sr w cid =
          [.sentResponse r.statusCode (chooseUpdateInfo cid r.body) false,
           .cachePopulated r, .errorHandled e]) := by
  intro e sr w cid hsr hw
  subst hw
  cases sr with
  | ok r =>
    constructor
    · rfl
    · intro r' hr'
      cases hr'
      rfl
  | invalidRequest =>
    constructor
    · rfl
    · intro r' hr'
      cases hr'
  | rejected e' => exact absurd rfl (hsr e')

/-- Witness for C4's amended theorem, at a concrete cache-read error and a
request whose validation fails, with a resolving cache write. -/
theorem updateCheck_cacheFailure_degrades_to_miss_witness :
    updateCheckEvents (.failure "redis read failed") .invalidRequest none "client1" =
      updateCheckEvents .miss .invalidRequest none "client1" ++
        [.errorHandled "redis read failed"] :=
  (updateCheck_cacheFailure_degrades_to_miss "redis read failed" .invalidRequest none "client1"
    (fun _ h => StorageComputeResult.noConfusion h) rfl).1

/-- Counterexample to C4 as stated: the stored cache-read error is dropped
both when the storage computation rejects (only the storage error reaches the
error handler) and when the storage computation resolves but the deferred
cache write rejects (only the write error reaches the error handler) — in
either case the cache-read error *is* swallowed. -/
theorem updateCheck_cacheFailure_counterexample :
    updateCheckEvents (.failure "redis read failed") (.rejected "storage rejected") none
        "client1" = [.errorHandled "storage rejected"] ∧
    UpdateCheckEvent.errorHandled "redis read failed" ∉
      updateCheckEvents (.failure "redis read failed") (.rejected "storage rejected") none
        "client1" ∧
    updateCheckEvents (.failure "redis read failed") (.ok responseFixture)
        (some "cache write failed") "client1" =
      [.sentResponse 200 (chooseUpdateInfo "client1" responseFixture.body) false,
       .errorHandled "cache write failed"] ∧
    UpdateCheckEvent.errorHandled "redis read failed" ∉
      updateCheckEvents (.failure "redis read failed") (.ok responseFixture)
        (some "cache write failed") "client1" := by
  refine ⟨rfl, by decide, rfl, by decide⟩

/-- Field lists that agree outside the client-identifying fields sanitize to
the same list. -/
theorem sanitizeClientQuery_eq_of_agrees :
    ∀ b1 b2 : List (String × String), agreesOutsideClientFields b1 b2 = true →
      sanitizeClientQuery b1 = sanitizeClientQuery b2 := by
  intro b1
  induction b1 with
  | nil =>
    intro b2 h
    cases b2 with
    | nil => rfl
    | cons kv t => simp [agreesOutsideClientFields] at h
  | cons kv t1 ih =>
    intro b2 h
    cases b2 with
    | nil => simp [agreesOutsideClientFields] at h
    | cons kv2 t2 =>
      obtain ⟨k1, v1⟩ := kv
      obtain ⟨k2, v2⟩ := kv2
      simp only [agreesOutsideClientFields, Bool.and_eq_true, decide_eq_true_eq,
        Bool.or_eq_true] at h
      obtain ⟨⟨hk, hv⟩, ht⟩ := h
      subst hk
      cases hcf : isClientField k1 with
      | true => simpa [sanitizeClientQuery, List.filter_cons, hcf] using ih t2 ht
      | false =>
        have hveq : v1 = v2 := by
          rcases hv with hv | hv
          · rw [hcf] at hv
            cases hv
          · exact hv
        subst hveq
        simpa [sanitizeClientQuery, List.filter_cons, hcf] using ih t2 ht

/-- C3: two update-check requests with the same method, path and deployment
key whose query/body fields differ only in the client-identifying fields
(`clientUniqueId` / `client_unique_id` — differing values, or the field
present in one and absent in the other) derive the identical cache address,
which is composed of the deployment-key hash and the path plus the remaining
sanitized fields. -/
theorem cacheAddress_ignores_client_id :
    (∀ (dk path : String) (b1 b2 : List (String × String)),
      agreesOutsideClientFields b1 b2 = true →
      cacheAddress dk path b1 = cacheAddress dk path b2) ∧
    (∀ (dk path : String) (pre post : List (String × String)) (v : String),
      cacheAddress dk path (pre ++ ("clientUniqueId", v) :: post) =
        cacheAddress dk path (pre ++ post)) ∧
    (∀ (dk path : String) (pre post : List (String × String)) (v : String),
      cacheAddress dk path (pre ++ ("client_unique_id", v) :: post) =
        cacheAddress dk path (pre ++ post)) ∧
    (∀ (dk path : String) (b : List (String × String)),
      cacheAddress dk path b = (getDeploymentKeyHash dk, getCacheKey path b)) := by
  refine ⟨?_, ?_, ?_, ?_⟩
  · intro dk path b1 b2 h
    simp [cacheAddress, getCacheKey, sanitizeClientQuery_eq_of_agrees b1 b2 h]
  · intro dk path pre post v
    simp [cacheAddress, getCacheKey, sanitizeClientQuery, List.filter_append,
      List.filter_cons, isClientField]
  · intro dk path pre post v
    simp [cacheAddress, getCacheKey, sanitizeClientQuery, List.filter_append,
      List.filter_cons, isClientField]
  · intro dk path b
    rfl

/-- Witness for C3: two concrete bodies differing only in the
`clientUniqueId` value share their cache address. -/
theorem cacheAddress_ignores_client_id_witness :
    cacheAddress "DK1" "/updateCheck"
        [("deploymentKey", "DK1"), ("appVersion", "1.0.0"), ("clientUniqueId", "clientA")] =
      cacheAddress "DK1" "/updateCheck"
        [("deploymentKey", "DK1"), ("appVersion", "1.0.0"), ("clientUniqueId", "clientB")] :=
  cacheAddress_ignores_client_id.1 "DK1" "/updateCheck" _ _ (by decide)

/-- A digit character is not a tag character. -/
theorem isTagChar_eq_false_of_isDigit (c : Char) (h : c.isDigit = true) : isTagChar c = false := by
  unfold isTagChar
  by_cases h1 : c = '+'
  · subst h1
    exact absurd h (by decide)
  · by_cases h2 : c = '-'
    · subst h2
      exact absurd h (by decide)
    · simp [h1, h2]

/-- `splitDigits` consumes a maximal all-digit run and stops at the first
non-digit. -/
theorem splitDigits_append (ds : List Char) (x : Char) (r : List Char)
    (hds : ∀ c ∈ ds, c.isDigit = true) (hx : x.isDigit = false) :
    splitDigits (ds ++ x :: r) = (ds, x :: r) := by
  induction ds with
  | nil => simp [splitDigits, hx]
  | cons c t ih =>
    have hc : c.isDigit = true := hds c (List.mem_cons_self c t)
    have ht := ih (fun y hy => hds y (List.mem_cons_of_mem c hy))
    simp [splitDigits, hc, ht]

/-- `splitDigits` on an all-digit list consumes everything. -/
theorem splitDigits_all_digits (ds : List Char) (hds : ∀ c ∈ ds, c.isDigit = true) :
    splitDigits ds = (ds, []) := by
  induction ds with
  | nil => rfl
  | cons c t ih =>
    have hc : c.isDigit = true := hds c (List.mem_cons_self c t)
    have ht := ih (fun y hy => hds y (List.mem_cons_of_mem c hy))
    simp [splitDigits, hc, ht]

/-- With no tag character present, `insertPatchBeforeTag` appends `".0"`. -/
theorem insertPatchBeforeTag_no_tag (cs : List Char) (h : ∀ c ∈ cs, isTagChar c = false) :
    insertPatchBeforeTag cs = cs ++ ('.' :: '0' :: []) := by
  induction cs with
  | nil => rfl
  | cons c t ih =>
    have hc : isTagChar c = false := h c (List.mem_cons_self c t)
    have ht := ih (fun y hy => h y (List.mem_cons_of_mem c hy))
    simp [insertPatchBeforeTag, hc, ht]

/-- `insertPatchBeforeTag` inserts `".0"` exactly before the first tag
character. -/
theorem insertPatchBeforeTag_at_tag (pre : List Char) (c : Char) (rest : List Char)
    (hpre : ∀ x ∈ pre, isTagChar x = false) (hc : isTagChar c = true) :
    insertPatchBeforeTag (pre ++ c :: rest) = pre ++ '.' :: '0' :: c :: rest := by
  induction pre with
  | nil => simp [insertPatchBeforeTag, hc]
  | cons x t ih =>
    have hx : isTagChar x = false := hpre x (List.mem_cons_self x t)
    have ht := ih (fun y hy => hpre y (List.mem_cons_of_mem x hy))
    simp [insertPatchBeforeTag, hx, ht]

/-- A non-empty list is not `isEmpty`. -/
theorem isEmpty_eq_false_of_ne_nil {α : Type} {l : List α} (h : l ≠ []) : l.isEmpty = false := by
  cases l with
  | nil => exact absurd rfl h
  | cons a t => rfl

/-- A list containing a dot is not a plain integer. -/
theorem isPlainIntegerNumber_append_dot (a b : List Char) :
    isPlainIntegerNumber (a ++ '.' :: b) = false := by
  unfold isPlainIntegerNumber
  have : (a ++ '.' :: b).all (·.isDigit) = false := by
    rw [List.all_eq_false]
    exact ⟨'.', by simp, by decide⟩
  simp [this]

/-- C2: before resolution the request's `appVersion` is normalized — a bare
integer `s` becomes `s + ".0.0"`, a two-component `a.b` becomes `a.b.0`, and
a tagged two-component `a.b` + tag gets `".0"` inserted before the tag — and
whenever normalization fired and the resolved `originalPackage.appVersion`
equals the normalized request version, the response echoes the client's
original un-normalized string in both `originalPackage` and
`rolloutPackage`. -/
theorem appVersion_normalization_and_echo :
    (∀ s : String, s.data ≠ [] → (∀ c ∈ s.data, c.isDigit = true) →
      normalizeAppVersion s =
        (String.mk (s.data ++ ('.' :: '0' :: '.' :: '0' :: [])), some s)) ∧
    (∀ a b : List Char, a ≠ [] → b ≠ [] →
      (∀ c ∈ a, c.isDigit = true) → (∀ c ∈ b, c.isDigit = true) →
      normalizeAppVersion (String.mk (a ++ '.' :: b)) =
        (String.mk (a ++ '.' :: (b ++ ('.' :: '0' :: []))),
          some (String.mk (a ++ '.' :: b)))) ∧
    (∀ a b rest : List Char, ∀ t : Char, a ≠ [] → b ≠ [] →
      (∀ c ∈ a, c.isDigit = true) → (∀ c ∈ b, c.isDigit = true) → isTagChar t = true →
      rest.all (fun c => !isLineTerminator c) = true →
      normalizeAppVersion (String.mk (a ++ '.' :: (b ++ t :: rest))) =
        (String.mk (a ++ '.' :: (b ++ '.' :: '0' :: t :: rest)),
          some (String.mk (a ++ '.' :: (b ++ t :: rest))))) ∧
    (∀ (norm : String × Option String) (u : UpdateCheckCacheResponse) (orig : String),
      norm.2 = some orig → u.originalPackage.appVersion = norm.1 →
      (applyOriginalVersionEcho norm u).originalPackage.appVersion = orig ∧
      (applyOriginalVersionEcho norm u).rolloutPackage =
        u.rolloutPackage.map (fun p => { p with appVersion := orig })) := by
  refine ⟨?_, ?_, ?_, ?_⟩
  · intro s hne hdig
    have hplain : isPlainIntegerNumber s.data = true := by
      unfold isPlainIntegerNumber
      rw [isEmpty_eq_false_of_ne_nil hne, List.all_eq_true.mpr hdig]
      rfl
    have hsplit : splitDigits (s.data ++ '.' :: '0' :: '.' :: '0' :: []) =
        (s.data, '.' :: '0' :: '.' :: '0' :: []) :=
      splitDigits_append s.data '.' ('0' :: '.' :: '0' :: []) hdig (by decide)
    have hmiss : isMissingPatchVersion (s.data ++ '.' :: '0' :: '.' :: '0' :: []) = false := by
      unfold isMissingPatchVersion
      rw [hsplit]
      simp [isEmpty_eq_false_of_ne_nil hne, splitDigits, isTagChar]
    unfold normalizeAppVersion normalizeAppVersionCore
    simp [hplain, hmiss]
  · intro a b hna hnb hda hdb
    have hplain : isPlainIntegerNumber ((String.mk (a ++ '.' :: b)).data) = false :=
      isPlainIntegerNumber_append_dot a b
    have hsplit : splitDigits (a ++ '.' :: b) = (a, '.' :: b) :=
      splitDigits_append a '.' b hda (by decide)
    have hsplit2 : splitDigits b = (b, []) := splitDigits_all_digits b hdb
    have hmiss : isMissingPatchVersion (a ++ '.' :: b) = true := by
      unfold isMissingPatchVersion
      rw [hsplit]
      simp [isEmpty_eq_false_of_ne_nil hna, isEmpty_eq_false_of_ne_nil hnb, hsplit2]
    have hnotag : ∀ x ∈ a ++ '.' :: b, isTagChar x = false := by
      intro x hx
      rcases List.mem_append.mp hx with hxa | hxb
      · exact isTagChar_eq_false_of_isDigit x (hda x hxa)
      · rcases List.mem_cons.mp hxb with hdot | hxb2
        · subst hdot
          decide
        · exact isTagChar_eq_false_of_isDigit x (hdb x hxb2)
    have hins : insertPatchBeforeTag (a ++ '.' :: b) = (a ++ '.' :: b) ++ ('.' :: '0' :: []) :=
      insertPatchBeforeTag_no_tag _ hnotag
    unfold normalizeAppVersion normalizeAppVersionCore
    simp only [List.cons_append, List.append_assoc] at hins ⊢
    simp [hplain, hmiss, hins]
  · intro a b rest t hna hnb hda hdb htag hrest
    have hplain : isPlainIntegerNumber ((String.mk (a ++ '.' :: (b ++ t :: rest))).data) = false :=
      isPlainIntegerNumber_append_dot a (b ++ t :: rest)
    have htagnotdigit : t.isDigit = false := by
      unfold isTagChar at htag
      rcases Bool.or_eq_true_iff.mp htag with h | h
      · rw [decide_eq_true_eq] at h
        subst h
        decide
      · rw [decide_eq_true_eq] at h
        subst h
        decide
    have hsplit : splitDigits (a ++ '.' :: (b ++ t :: rest)) = (a, '.' :: (b ++ t :: rest)) :=
      splitDigits_append a '.' (b ++ t :: rest) hda (by decide)
    have hsplit2 : splitDigits (b ++ t :: rest) = (b, t :: rest) :=
      splitDigits_append b t rest hdb htagnotdigit
    have hmiss : isMissingPatchVersion (a ++ '.' :: (b ++ t :: rest)) = true := by
      unfold isMissingPatchVersion
      rw [hsplit]
      simp [isEmpty_eq_false_of_ne_nil hna, isEmpty_eq_false_of_ne_nil hnb, hsplit2, htag,
        hrest]
    have hnotag : ∀ x ∈ a ++ '.' :: b, isTagChar x = false := by
      intro x hx
      rcases List.mem_append.mp hx with hxa | hxb
      · exact isTagChar_eq_false_of_isDigit x (hda x hxa)
      · rcases List.mem_cons.mp hxb with hdot | hxb2
        · subst hdot
          decide
        · exact isTagChar_eq_false_of_isDigit x (hdb x hxb2)
    have hins : insertPatchBeforeTag ((a ++ '.' :: b) ++ t :: rest) =
        (a ++ '.' :: b) ++ '.' :: '0' :: t :: rest :=
      insertPatchBeforeTag_at_tag (a ++ '.' :: b) t rest hnotag htag
    unfold normalizeAppVersion normalizeAppVersionCore
    simp only [List.cons_append, List.append_assoc] at hins ⊢
    simp [hplain, hmiss, hins]
  · intro norm u orig hnorm hecho
    unfold applyOriginalVersionEcho
    rw [hnorm]
    simp [hecho]

/-- Witness for C2, at the concrete versions "2", "2.0" and "2.0-beta", plus
a concrete response whose resolved original package matches the normalized
version. -/
theorem appVersion_normalization_and_echo_witness :
    normalizeAppVersion (String.mk ('2' :: [])) =
      (String.mk ('2' :: '.' :: '0' :: '.' :: '0' :: []), some (String.mk ('2' :: []))) ∧
    normalizeAppVersion (String.mk ('2' :: '.' :: '0' :: [])) =
      (String.mk ('2' :: '.' :: ('0' :: []) ++ ('.' :: '0' :: [])),
        some (String.mk ('2' :: '.' :: '0' :: []))) ∧
    normalizeAppVersion (String.mk ('2' :: '.' :: (('0' :: []) ++ '-' :: 'b' :: []))) =
      (String.mk ('2' :: '.' :: (('0' :: []) ++ '.' :: '0' :: '-' :: 'b' :: [])),
        some (String.mk ('2' :: '.' :: (('0' :: []) ++ '-' :: 'b' :: [])))) ∧
    (applyOriginalVersionEcho ("2.0.0", some "2")
        { originalPackage :=
            { isAvailable := true, appVersion := "2.0.0", label := some "v1",
              packageHash := "h1", isMandatory := false, target_binary_range := none }
          rolloutPackage := none
          rollout := none }).originalPackage.appVersion = "2" :=
  ⟨(appVersion_normalization_and_echo.1 (String.mk ('2' :: [])) (by decide) (by decide)),
   (appVersion_normalization_and_echo.2.1 ('2' :: []) ('0' :: []) (by decide) (by decide)
      (by decide) (by decide)),
   (appVersion_normalization_and_echo.2.2.1 ('2' :: []) ('0' :: []) ('b' :: []) '-'
      (by decide) (by decide) (by decide) (by decide) (by decide) (by decide)),
   ((appVersion_normalization_and_echo.2.2.2 ("2.0.0", some "2") _ "2" rfl rfl).1)⟩

/-- `find?` commutes with a `map` that does not change the predicate's
verdict. -/
theorem find?_map_of_pred_eq {α : Type} (g : α → α) (p : α → Bool)
    (h : ∀ x, p (g x) = p x) : ∀ l : List α, (l.map g).find? p = (l.find? p).map g := by
  intro l
  induction l with
  | nil => rfl
  | cons a t ih =>
    cases hpa : p a with
    | true => simp [List.find?, h a, hpa]
    | false => simp [List.find?, h a, hpa, ih]

/-- `find?` skips a prefix in which it finds nothing. -/
theorem find?_append_of_none {α : Type} (p : α → Bool) (l1 l2 : List α)
    (h : l1.find? p = none) : (l1 ++ l2).find? p = l2.find? p := by
  induction l1 with
  | nil => rfl
  | cons a t ih =>
    rw [List.cons_append]
    simp only [List.find?] at h ⊢
    cases hpa : p a with
    | true =>
      simp only [hpa] at h
      exact Option.noConfusion h
    | false =>
      simp only [hpa] at h ⊢
      exact ih h

/-- `find?` keeps a hit found in the prefix. -/
theorem find?_append_of_some {α : Type} (p : α → Bool) (l1 l2 : List α) (x : α)
    (h : l1.find? p = some x) : (l1 ++ l2).find? p = some x := by
  induction l1 with
  | nil => simp [List.find?] at h
  | cons a t ih =>
    rw [List.cons_append]
    simp only [List.find?] at h ⊢
    cases hpa : p a with
    | true =>
      simp only [hpa] at h ⊢
      exact h
    | false =>
      simp only [hpa] at h ⊢
      exact ih h

/-- In a collaborator list that contains `(A, Owner)` and in which every
owner entry has email `A`, the first owner entry is `(A, Owner)`. -/
theorem find_owner_eq (l : List (String × Permission)) (A : String)
    (howner : (A, Permission.Owner) ∈ l)
    (huniq : ∀ c ∈ l, c.2 = Permission.Owner → c.1 = A) :
    l.find? (fun c => c.2 = Permission.Owner) = some (A, Permission.Owner) := by
  induction l with
  | nil => cases howner
  | cons c t ih =>
    by_cases hc : c.2 = Permission.Owner
    · have h1 : c.1 = A := huniq c (List.mem_cons_self c t) hc
      have hce : c = (A, Permission.Owner) := Prod.ext h1 hc
      simp [List.find?, hc, hce]
    · have hmem : (A, Permission.Owner) ∈ t := by
        rcases List.mem_cons.mp howner with heq | hmem
        · exact absurd (congrArg Prod.snd heq.symm) hc
        · exact hmem
      have ht := ih hmem (fun x hx => huniq x (List.mem_cons_of_mem c hx))
      simp [List.find?, hc, ht]

/-- C5 (amended): after a successful `transferApp` of an app owned by `A` to
a registered account `B ≠ A`, `B` is the unique owner, `A` is a collaborator,
every other collaborator keeps its permission, and the collaborator count is
unchanged when `B` was already a collaborator (otherwise it grows by exactly
one — `B` is added). -/
theorem transferApp_owner_invariant :
    ∀ (registeredEmails : List String) (app : App) (A B : String),
      (A, Permission.Owner) ∈ app.collaborators →
      (∀ c ∈ app.collaborators, c.2 = Permission.Owner → c.1 = A) →
      B ∈ registeredEmails → B ≠ A →
      ∃ app', transferApp registeredEmails app B = Except.ok app' ∧
        collabPermission app' B = some Permission.Owner ∧
        collabPermission app' A = some Permission.Collaborator ∧
        (∀ c ∈ app'.collaborators, c.2 = Permission.Owner → c.1 = B) ∧
        (∀ e, e ≠ A → e ≠ B → collabPermission app' e = collabPermission app e) ∧
        app'.collaborators.length =
          app.collaborators.length +
            (if app.collaborators.any (fun c => c.1 = B) then 0 else 1) := by
  intro reg app A B howner huniq hreg hne
  have hAB : ¬ A = B := fun h => hne h.symm
  have hOwner : app.collaborators.find? (fun c => c.2 = Permission.Owner) =
      some (A, Permission.Owner) :=
    find_owner_eq _ A howner huniq
  have hgoe : getOwnerEmail app = some A := by
    unfold getOwnerEmail
    rw [hOwner]
    rfl
  have hany : reg.any (fun e => e = B) = true :=
    List.any_eq_true.mpr ⟨B, hreg, by simp⟩
  have hkey : ∀ c : String × Permission,
      (if c.1 = B then (c.1, Permission.Owner)
       else if c.1 = A then (c.1, Permission.Collaborator)
       else c).1 = c.1 := by
    intro c
    by_cases h1 : c.1 = B
    · rw [if_pos h1]
    · by_cases h2 : c.1 = A
      · rw [if_neg h1, if_pos h2]
      · rw [if_neg h1, if_neg h2]
  have hmapfind : ∀ e : String,
      (app.collaborators.map (fun c =>
        if c.1 = B then (c.1, Permission.Owner)
        else if c.1 = A then (c.1, Permission.Collaborator)
        else c)).find? (fun c => c.1 = e) =
      (app.collaborators.find? (fun c => c.1 = e)).map (fun c =>
        if c.1 = B then (c.1, Permission.Owner)
        else if c.1 = A then (c.1, Permission.Collaborator)
        else c) := by
    intro e
    exact find?_map_of_pred_eq _ _ (fun x => by rw [hkey x]) app.collaborators
  have hexA : app.collaborators.find? (fun c => c.1 = A) ≠ none := by
    intro hnone
    exact (List.find?_eq_none.mp hnone (A, Permission.Owner) howner) (by simp)
  obtain ⟨cA, hfindA⟩ := Option.ne_none_iff_exists'.mp hexA
  have hcA1 : cA.1 = A := by
    have := List.find?_some hfindA
    rwa [decide_eq_true_eq] at this
  have hcA1ne : ¬ cA.1 = B := by
    rw [hcA1]
    exact fun h => hne h.symm
  by_cases hmem : app.collaborators.any (fun c => c.1 = B) = true
  · have htrans : transferApp reg app B = Except.ok
        { app with collaborators := app.collaborators.map (fun c =>
            if c.1 = B then (c.1, Permission.Owner)
            else if c.1 = A then (c.1, Permission.Collaborator)
            else c) } := by
      unfold transferApp
      rw [hgoe]
      simp [hne, hany, hmem]
    refine ⟨_, htrans, ?_, ?_, ?_, ?_, ?_⟩
    · obtain ⟨cB, hcBmem, hcB⟩ := List.any_eq_true.mp hmem
      rw [decide_eq_true_eq] at hcB
      have hexB : app.collaborators.find? (fun c => c.1 = B) ≠ none := by
        intro hnone
        exact (List.find?_eq_none.mp hnone cB hcBmem) (decide_eq_true hcB)
      obtain ⟨cB', hfindB⟩ := Option.ne_none_iff_exists'.mp hexB
      have hcB'1 : cB'.1 = B := by
        have := List.find?_some hfindB
        rwa [decide_eq_true_eq] at this
      unfold collabPermission
      simp only [hmapfind B, hfindB, Option.map_map, Option.map_some]
      simp [hcB'1]
    · unfold collabPermission
      simp only [hmapfind A, hfindA, Option.map_map, Option.map_some]
      simp [hcA1, hAB]
    · intro c hc hcown
      obtain ⟨c0, hc0mem, hc0⟩ := List.mem_map.mp hc
      by_cases h1 : c0.1 = B
      · rw [← hc0, hkey c0, h1]
      · by_cases h2 : c0.1 = A
        · rw [← hc0] at hcown
          simp [h1, h2, hAB] at hcown
        · rw [← hc0] at hcown
          simp [h1, h2] at hcown
          exact absurd (huniq c0 hc0mem hcown) h2
    · intro e heA heB
      unfold collabPermission
      simp only [hmapfind e]
      cases hfe : app.collaborators.find? (fun c => c.1 = e) with
      | none => rfl
      | some ce =>
        have hce1 : ce.1 = e := by
          have := List.find?_some hfe
          rwa [decide_eq_true_eq] at this
        have hne1 : ¬ ce.1 = B := by
          rw [hce1]
          exact heB
        have hne2 : ¬ ce.1 = A := by
          rw [hce1]
          exact heA
        simp [hne1, hne2]
    · simp [hmem]
  · have htrans : transferApp reg app B = Except.ok
        { app with collaborators := app.collaborators.map (fun c =>
            if c.1 = B then (c.1, Permission.Owner)
            else if c.1 = A then (c.1, Permission.Collaborator)
            else c) ++ [(B, Permission.Owner)] } := by
      unfold transferApp
      rw [hgoe]
      simp [hne, hany, hmem]
    have hnofind : app.collaborators.find? (fun c => c.1 = B) = none := by
      rw [List.find?_eq_none]
      intro x hx hpx
      rw [decide_eq_true_eq] at hpx
      exact hmem (List.any_eq_true.mpr ⟨x, hx, decide_eq_true hpx⟩)
    have hmapnone : (app.collaborators.map (fun c =>
        if c.1 = B then (c.1, Permission.Owner)
        else if c.1 = A then (c.1, Permission.Collaborator)
        else c)).find? (fun c => c.1 = B) = none := by
      rw [hmapfind B, hnofind]
      rfl
    refine ⟨_, htrans, ?_, ?_, ?_, ?_, ?_⟩
    · unfold collabPermission
      simp only [find?_append_of_none _ _ _ hmapnone]
      simp [List.find?]
    · unfold collabPermission
      have hsome : (app.collaborators.map (fun c =>
          if c.1 = B then (c.1, Permission.Owner)
          else if c.1 = A then (c.1, Permission.Collaborator)
          else c)).find? (fun c => c.1 = A) =
          some (if cA.1 = B then (cA.1, Permission.Owner)
            else if cA.1 = A then (cA.1, Permission.Collaborator)
            else cA) := by
        rw [hmapfind A, hfindA]
        rfl
      simp only [find?_append_of_some _ _ _ _ hsome]
      simp [hcA1, hAB]
    · intro c hc hcown
      rcases List.mem_append.mp hc with hcm | hctail
      · obtain ⟨c0, hc0mem, hc0⟩ := List.mem_map.mp hcm
        by_cases h1 : c0.1 = B
        · rw [← hc0, hkey c0, h1]
        · by_cases h2 : c0.1 = A
          · rw [← hc0] at hcown
            simp [h1, h2, hAB] at hcown
          · rw [← hc0] at hcown
            simp [h1, h2] at hcown
            exact absurd (huniq c0 hc0mem hcown) h2
      · rcases List.mem_cons.mp hctail with heq | habs
        · rw [heq]
        · cases habs
    · intro e heA heB
      unfold collabPermission
      cases hfe : app.collaborators.find? (fun c => c.1 = e) with
      | none =>
        have hmapnonee : (app.collaborators.map (fun c =>
            if c.1 = B then (c.1, Permission.Owner)
            else if c.1 = A then (c.1, Permission.Collaborator)
            else c)).find? (fun c => c.1 = e) = none := by
          rw [hmapfind e, hfe]
          rfl
        simp only [find?_append_of_none _ _ _ hmapnonee]
        have hBe : ¬ (B = e) := fun h => heB h.symm
        simp [List.find?, hBe]
      | some ce =>
        have hce1 : ce.1 = e := by
          have := List.find?_some hfe
          rwa [decide_eq_true_eq] at this
        have hne1 : ¬ ce.1 = B := by
          rw [hce1]
          exact heB
        have hne2 : ¬ ce.1 = A := by
          rw [hce1]
          exact heA
        have hsome : (app.collaborators.map (fun c =>
            if c.1 = B then (c.1, Permission.Owner)
            else if c.1 = A then (c.1, Permission.Collaborator)
            else c)).find? (fun c => c.1 = e) =
            some (if ce.1 = B then (ce.1, Permission.Owner)
              else if ce.1 = A then (ce.1, Permission.Collaborator)
              else ce) := by
          rw [hmapfind e, hfe]
          rfl
        simp only [find?_append_of_some _ _ _ _ hsome]
        simp [hne1, hne2]
    · simp [hmem]

/-- Witness for C5's amended theorem: transferring the three-collaborator
fixture app to the already-collaborating `collab1@example.com`. -/
theorem transferApp_owner_invariant_witness :
    ∃ app', transferApp ["owner@example.com", "collab1@example.com", "collab2@example.com"]
        appFixture3 "collab1@example.com" = Except.ok app' ∧
      collabPermission app' "collab1@example.com" = some Permission.Owner ∧
      collabPermission app' "owner@example.com" = some Permission.Collaborator ∧
      (∀ c ∈ app'.collaborators, c.2 = Permission.Owner → c.1 = "collab1@example.com") ∧
      (∀ e, e ≠ "owner@example.com" → e ≠ "collab1@example.com" →
        collabPermission app' e = collabPermission appFixture3 e) ∧
      app'.collaborators.length =
        appFixture3.collaborators.length +
          (if appFixture3.collaborators.any (fun c => c.1 = "collab1@example.com") then 0 else 1) :=
  transferApp_owner_invariant _ appFixture3 "owner@example.com" "collab1@example.com"
    (by decide) (by decide) (by decide) (by decide)

/-- Counterexample to C5 as stated: transferring the one-collaborator fixture
app to a registered account that is not yet a collaborator succeeds, but the
collaborator count grows from 1 to 2, refuting "the total collaborator count
is unchanged". -/
theorem transferApp_count_counterexample :
    (transferApp ["owner@example.com", "newowner@example.com"] appFixture
        "newowner@example.com").map (fun app => app.collaborators.length) = Except.ok 2 ∧
    appFixture.collaborators.length = 1 ∧
    "newowner@example.com" ∈ ["owner@example.com", "newowner@example.com"] ∧
    "newowner@example.com" ≠ "owner@example.com" := by
  refine ⟨rfl, rfl, by decide, by decide⟩

/-- No element satisfying `p` survives a filter that excludes everything
satisfying `p`. -/
theorem find?_filter_none {α : Type} (l : List α) (p q : α → Bool)
    (h : ∀ x, p x = true → q x = false) : (l.filter q).find? p = none := by
  rw [List.find?_eq_none]
  intro x hx hpx
  have hqt : q x = true := (List.mem_filter.mp hx).2
  rw [h x hpx] at hqt
  cases hqt

/-- With unique keys, filtering out the entry found for a key makes the key
unfindable. -/
theorem find?_filter_none_of_key {α β : Type} [DecidableEq β] (l : List α) (key : α → β) (k : β)
    (q : α → Bool) (hnd : (l.map key).Nodup) (x : α)
    (hfind : l.find? (fun y => key y = k) = some x) (hqx : q x = false) :
    (l.filter q).find? (fun y => key y = k) = none := by
  induction l with
  | nil => simp [List.find?] at hfind
  | cons a t ih =>
    rw [List.map_cons, List.nodup_cons] at hnd
    obtain ⟨hka, hndt⟩ := hnd
    simp only [List.find?] at hfind
    by_cases hak : key a = k
    · have hax : a = x := by
        simp [hak] at hfind
        exact hfind
      rw [List.filter_cons]
      rw [hax, hqx]
      rw [List.find?_eq_none]
      intro y hy hpy
      have hyt : y ∈ t := List.mem_of_mem_filter hy
      have hyk : key y = k := by rwa [decide_eq_true_eq] at hpy
      exact hka (by rw [hak, ← hyk]; exact List.mem_map.mpr ⟨y, hyt, rfl⟩)
    · simp only [decide_eq_false hak] at hfind
      rw [List.filter_cons]
      cases hqa : q a with
      | false => exact ih hndt hfind
      | true =>
        simp only [if_true]
        simp only [List.find?, decide_eq_false hak]
        exact ih hndt hfind

/-- C8: after a successful `removeApp`, looking up the removed app by id, any
of its deployments by deployment id, and its package history by deployment
key all fail with `NotFound` — the cascade leaves no descendant deployment or
reverse-index entry observable. -/
theorem removeApp_cascade :
    ∀ (st : StorageState) (appId : String) (st' : StorageState),
      removeApp st appId = Except.ok st' →
      (st.deployments.map Deployment.id).Nodup →
      (st.deploymentKeyIndex.map (fun e => e.1)).Nodup →
      getApp st' appId = Except.error ErrorCode.NotFound ∧
      (∀ did d, st.deployments.find? (fun x => x.id = did) = some d → d.appId = appId →
        getDeployment st' did = Except.error ErrorCode.NotFound) ∧
      (∀ key e, st.deploymentKeyIndex.find? (fun x => x.1 = key) = some e → e.2.1 = appId →
        getPackageHistoryFromDeploymentKey st' key = Except.error ErrorCode.NotFound) := by
  intro st appId st' hrem hndDep hndKey
  have hst' : st' =
      { apps := st.apps.filter (fun a => !(a.id = appId))
        deployments := st.deployments.filter (fun d => !(d.appId = appId))
        deploymentKeyIndex := st.deploymentKeyIndex.filter (fun e => !(e.2.1 = appId)) } := by
    unfold removeApp at hrem
    by_cases hmem : st.apps.any (fun a => a.id = appId) = true
    · rw [if_pos hmem] at hrem
      exact (Except.ok.inj hrem).symm
    · rw [if_neg hmem] at hrem
      cases hrem
  subst hst'
  refine ⟨?_, ?_, ?_⟩
  · unfold getApp
    rw [find?_filter_none]
    intro x hpx
    rw [decide_eq_true_eq] at hpx
    simp [hpx]
  · intro did d hfind hdapp
    unfold getDeployment
    rw [find?_filter_none_of_key st.deployments Deployment.id did _ hndDep d hfind
      (by simp [hdapp])]
  · intro key e hfind hekey
    unfold getPackageHistoryFromDeploymentKey
    rw [find?_filter_none_of_key st.deploymentKeyIndex (fun x => x.1) key _ hndKey e hfind
      (by simp [hekey])]

/-- Witness for C8: removing the fixture app empties the fixture store and
all three lookups fail `NotFound`. -/
theorem removeApp_cascade_witness :
    getApp { apps := [], deployments := [], deploymentKeyIndex := [] } "app1" =
      Except.error ErrorCode.NotFound ∧
    getDeployment { apps := [], deployments := [], deploymentKeyIndex := [] } "dep1" =
      Except.error ErrorCode.NotFound ∧
    getPackageHistoryFromDeploymentKey { apps := [], deployments := [], deploymentKeyIndex := [] }
        "DK1" = Except.error ErrorCode.NotFound :=
  have h := removeApp_cascade storageFixture "app1"
    { apps := [], deployments := [], deploymentKeyIndex := [] }
    rfl (by decide) (by decide)
  ⟨h.1, h.2.1 "dep1" deploymentFixture (by decide) (by decide),
    h.2.2 "DK1" ("DK1", "app1", "dep1") (by decide) (by decide)⟩

/-- C7: package-history retrieval by deployment key returns exactly the
deployment's stored packages in commit order — an empty sequence (not
`NotFound`) for a deployment with zero committed packages, `NotFound` only
for keys that do not resolve; a fresh deployment starts with an empty
history, and each `commitPackage` appends one labelled package at the end. -/
theorem packageHistory_retrieval :
    (∀ (st : StorageState) (key : String) (e : String × String × String) (d : Deployment),
      st.deploymentKeyIndex.find? (fun x => x.1 = key) = some e →
      st.deployments.find? (fun x => x.id = e.2.2) = some d →
      getPackageHistoryFromDeploymentKey st key = Except.ok d.packageHistory) ∧
    (∀ (st : StorageState) (key : String),
      st.deploymentKeyIndex.find? (fun x => x.1 = key) = none →
      getPackageHistoryFromDeploymentKey st key = Except.error ErrorCode.NotFound) ∧
    (∀ (st : StorageState) (appId : String) (dep : Deployment) (st' : StorageState) (did : String),
      addDeployment st appId dep = Except.ok (st', did) →
      st.deploymentKeyIndex.find? (fun x => x.1 = dep.key) = none →
      (∀ d ∈ st.deployments, ¬ d.id = dep.id) →
      getPackageHistoryFromDeploymentKey st' dep.key = Except.ok []) ∧
    (∀ (st : StorageState) (did : String) (d : Deployment) (pkg : Package) (st' : StorageState),
      st.deployments.find? (fun x => x.id = did) = some d →
      commitPackage st did pkg = Except.ok st' →
      getPackageHistory st' did =
        Except.ok (d.packageHistory ++
          [{ pkg with label := "v" ++ toString (d.packageHistory.length + 1) }])) := by
  refine ⟨?_, ?_, ?_, ?_⟩
  · intro st key e d h1 h2
    unfold getPackageHistoryFromDeploymentKey
    simp only [h1, h2]
  · intro st key h1
    unfold getPackageHistoryFromDeploymentKey
    simp only [h1]
  · intro st appId dep st' did hadd hkeyfresh hidfresh
    have hst' : st' =
        { st with
            deployments := st.deployments ++ [{ dep with appId := appId, packageHistory := [] }]
            deploymentKeyIndex := st.deploymentKeyIndex ++ [(dep.key, appId, dep.id)] } := by
      unfold addDeployment at hadd
      by_cases hmem : st.apps.any (fun a => a.id = appId) = true
      · rw [if_pos hmem] at hadd
        exact congrArg Prod.fst (Except.ok.inj hadd).symm
      · rw [if_neg hmem] at hadd
        cases hadd
    subst hst'
    unfold getPackageHistoryFromDeploymentKey
    have hidx : (st.deploymentKeyIndex ++ [(dep.key, appId, dep.id)]).find?
        (fun x => x.1 = dep.key) = some (dep.key, appId, dep.id) := by
      rw [find?_append_of_none _ _ _ hkeyfresh]
      simp [List.find?]
    have hdepnone : st.deployments.find? (fun x => x.id = dep.id) = none := by
      rw [List.find?_eq_none]
      intro x hx hpx
      rw [decide_eq_true_eq] at hpx
      exact hidfresh x hx hpx
    have hdep : (st.deployments ++ [{ dep with appId := appId, packageHistory := [] }]).find?
        (fun x => x.id = dep.id) =
        some { dep with appId := appId, packageHistory := [] } := by
      rw [find?_append_of_none _ _ _ hdepnone]
      simp [List.find?]
    simp only [hidx, hdep]
  · intro st did d pkg st' hfind hcommit
    have hdid : d.id = did := by
      have := List.find?_some hfind
      rwa [decide_eq_true_eq] at this
    have hst' : st' =
        { st with
            deployments := st.deployments.map (fun d' =>
              if d'.id = did then
                { d' with packageHistory := d'.packageHistory ++
                    [{ pkg with label := "v" ++ toString (d'.packageHistory.length + 1) }] }
              else d') } := by
      unfold commitPackage at hcommit
      rw [hfind] at hcommit
      exact (Except.ok.inj hcommit).symm
    subst hst'
    unfold getPackageHistory getDeployment
    have hmap : (st.deployments.map (fun d' =>
        if d'.id = did then
          { d' with packageHistory := d'.packageHistory ++
              [{ pkg with label := "v" ++ toString (d'.packageHistory.length + 1) }] }
        else d')).find? (fun x => x.id = did) =
        some { d with packageHistory := d.packageHistory ++
          [{ pkg with label := "v" ++ toString (d.packageHistory.length + 1) }] } := by
      rw [find?_map_of_pred_eq _ _ (fun x => by by_cases hx : x.id = did <;> simp [hx])
        st.deployments]
      rw [hfind]
      simp [hdid]
    simp only [hmap, Except.map]

/-- Witness for C7: the fixture store resolves the fixture key to the empty
history. -/
theorem packageHistory_retrieval_witness :
    getPackageHistoryFromDeploymentKey storageFixture "DK1" = Except.ok [] ∧
    getPackageHistoryFromDeploymentKey storageFixture "DKmissing" =
      Except.error ErrorCode.NotFound :=
  ⟨by
    have h := packageHistory_retrieval.1 storageFixture "DK1" ("DK1", "app1", "dep1")
      deploymentFixture (by decide) (by decide)
    exact h,
   packageHistory_retrieval.2.1 storageFixture "DKmissing" (by decide)⟩

end CodePush
